import Mathlib

/-!
Shallow embedding of `scripts/generate_multilabel_from_labels.py` from the
`filter-chatgpt-annotator` repository.

Python floats (confidences, thresholds) are modelled as rationals `ℚ`;
Python dicts that are iterated in insertion order (`item['labels']`,
the `thresholds` dict, `category_mapping`) are modelled as association
lists in the same order.  The effectful parts of the script (file IO,
`datetime.now()`, `time.time()`, `print`) are outside the model: the
functions below compute the data that the script writes, and the
wall-clock fields are passed in as explicit parameters.
-/

namespace ChatGPTAnnotator

/-- One value of `item['labels'][class_name]`: the fields of a label that the
script reads (`present`, `confidence`).  `bbox` is never read by this script
and is omitted. -/
structure LabelInfo where
  present : Bool
  confidence : ℚ
deriving Repr, DecidableEq

/-- One line of `labels.jsonl`: `{"image": path, "labels": {...}}`.  The
`labels` dict is modelled as an association list in dict insertion order. -/
structure LogEntry where
  image : String
  labels : List (String × LabelInfo)
deriving Repr, DecidableEq

/-- The parsed label log (`labels_data` in the script). -/
abbrev LabelLog := List LogEntry

/-- `os.path.basename` on POSIX: the part of the path after the last slash. -/
def basename (p : String) : String :=
  (p.splitOn "/").getLastD ""

/-- `extract_image_info`: returns the basename of the path and the hardcoded
default dimensions 640 × 480; the image file is never opened. -/
def extract_image_info (p : String) : String × ℕ × ℕ :=
  (basename p, 640, 480)

/-- The `present_objects` list of `analyze_confidence_distribution`: the
confidences of all labels with `present == true`, in log order. -/
def presentConfs (log : LabelLog) : List ℚ :=
  log.flatMap fun item =>
    (item.labels.filter fun kv => kv.2.present).map fun kv => kv.2.confidence

/-- `len([c for c in cs if c >= t])`. -/
def countAtLeast (cs : List ℚ) (t : ℚ) : ℕ :=
  (cs.filter fun c => t ≤ c).length

/-- The keys of the `thresholds` dict, in insertion (ascending) order. -/
def analyzerThresholds : List ℚ := [1/2, 3/5, 7/10, 4/5, 9/10]

/-- The selection loop of `analyze_confidence_distribution`:
`optimal_threshold` starts at 0.7 and the loop breaks at the first threshold
whose count is `>= n * 0.8`. -/
def selectOptimal (cs : List ℚ) (n : ℕ) : List ℚ → ℚ
  | [] => 7/10
  | t :: ts =>
    if (n : ℚ) * (4/5) ≤ (countAtLeast cs t : ℚ) then t else selectOptimal cs n ts

/-- `analyze_confidence_distribution`: with no present labels returns
`(0.5, "No present objects found")`; otherwise sorts the present confidences
and returns the first threshold in `{0.5, 0.6, 0.7, 0.8, 0.9}` retaining at
least 80% of them, defaulting to 0.7, plus a summary string. -/
def analyze_confidence_distribution (log : LabelLog) : ℚ × String :=
  let present := presentConfs log
  if present.isEmpty then (1/2, "No present objects found")
  else
    let sortedPresent := present.mergeSort fun a b => decide (a ≤ b)
    let n := sortedPresent.length
    let optimal := selectOptimal sortedPresent n analyzerThresholds
    (optimal,
      "Found " ++ toString n ++ " present objects. Suggested threshold: " ++ reprStr optimal)

/-- The filter of the annotation loop:
`label_info['present'] and label_info['confidence'] >= confidence_threshold`. -/
def qualifies (t : ℚ) (info : LabelInfo) : Bool :=
  info.present && decide (t ≤ info.confidence)

/-- `all_classes`: the set of class names seen anywhere in the log (a Python
set, modelled as the dedup of the occurrence list). -/
def allClasses (log : LabelLog) : List String :=
  (log.flatMap fun item => item.labels.map Prod.fst).dedup

/-- `classes = sorted(list(all_classes))`. -/
def sortedClasses (log : LabelLog) : List String :=
  (allClasses log).mergeSort fun a b => decide (a ≤ b)

/-- `category_mapping = {class_name: idx + 1 for idx, class_name in enumerate(classes)}`,
as an association list in dict insertion order. -/
def category_mapping (log : LabelLog) : List (String × ℕ) :=
  (sortedClasses log).enum.map fun p => (p.2, p.1 + 1)

/-- An element of `coco_data["images"]`. -/
structure CocoImage where
  id : ℕ
  width : ℕ
  height : ℕ
  file_name : String
  license : ℕ
  flickr_url : String
  coco_url : String
  date_captured : ℕ
deriving Repr, DecidableEq

/-- An element of `coco_data["annotations"]`. -/
structure CocoAnn where
  id : ℕ
  image_id : ℕ
  category_id : ℕ
  segmentation : List (List ℚ)
  area : ℕ
  bbox : List ℕ
  iscrowd : ℕ
deriving Repr, DecidableEq

/-- An element of `coco_data["categories"]`. -/
structure CocoCategory where
  id : ℕ
  name : String
  supercategory : String
deriving Repr, DecidableEq

/-- The parts of `coco_data` that depend on the log (the `info` block is a
constant plus a `datetime.now()` timestamp and the `licenses` block is a
constant; neither is modelled). -/
structure CocoData where
  images : List CocoImage
  annotations : List CocoAnn
  categories : List CocoCategory
deriving Repr, DecidableEq

/-- The `image_info` dict built for one log entry. -/
def mkImage (imgId : ℕ) (item : LogEntry) : CocoImage :=
  let fi := extract_image_info item.image
  { id := imgId, width := fi.2.1, height := fi.2.2, file_name := fi.1,
    license := 1, flickr_url := "", coco_url := "", date_captured := 0 }

/-- The `annotation` dict built for one qualifying label.  `bbox` is the full
image extent `[0, 0, width, height]` and `area = width * height`. -/
def mkAnn (annId imgId cid w h : ℕ) : CocoAnn :=
  { id := annId, image_id := imgId, category_id := cid, segmentation := [],
    area := w * h, bbox := [0, 0, w, h], iscrowd := 0 }

/-- The inner loop over `item['labels'].items()`: emits one annotation per
label passing `qualifies`, threading the `annotation_id` counter; returns the
emitted annotations together with the final counter value.  The dict access
`category_mapping[class_name]` (which cannot fail in the script, every class
of the log being a key) is modelled as an association-list lookup. -/
def annotateLabels (mapping : List (String × ℕ)) (t : ℚ) (imgId w h : ℕ) :
    ℕ → List (String × LabelInfo) → List CocoAnn × ℕ
  | annId, [] => ([], annId)
  | annId, (c, info) :: rest =>
    if qualifies t info then
      let res := annotateLabels mapping t imgId w h (annId + 1) rest
      (mkAnn annId imgId ((mapping.lookup c).getD 0) w h :: res.1, res.2)
    else
      annotateLabels mapping t imgId w h annId rest

/-- The outer loop over `labels_data`: threads the `image_id` and
`annotation_id` counters, producing the `images` and `annotations` lists. -/
def processEntries (mapping : List (String × ℕ)) (t : ℚ) :
    ℕ → ℕ → LabelLog → List CocoImage × List CocoAnn
  | _, _, [] => ([], [])
  | imgId, annId, item :: rest =>
    let fi := extract_image_info item.image
    let entryAnns := annotateLabels mapping t imgId fi.2.1 fi.2.2 annId item.labels
    let restRes := processEntries mapping t (imgId + 1) entryAnns.2 rest
    (mkImage imgId item :: restRes.1, entryAnns.1 ++ restRes.2)

/-- `generate_multilabel_dataset`: the COCO data computed from the log and
the confidence threshold (the part the script serializes to
`annotations.json`, minus the constant/timestamp metadata blocks). -/
def generate_multilabel_dataset (log : LabelLog) (t : ℚ) : CocoData :=
  let mapping := category_mapping log
  let res := processEntries mapping t 1 1 log
  { images := res.1, annotations := res.2,
    categories := mapping.map fun p =>
      { id := p.2, name := p.1, supercategory := "object" } }

/-- The `summary` dict written to `_summary_report.json`.  `output_directory`
and `generated_at` (`time.time()`) are environmental inputs passed in as
parameters. -/
structure SummaryReport where
  task_type : String
  format : String
  total_classes : ℕ
  classes : List String
  category_mapping : List (String × ℕ)
  total_images : ℕ
  total_annotations : ℕ
  output_directory : String
  confidence_threshold : ℚ
  coco_file : String
  bbox_type : String
  description : String
  generated_at : ℚ
deriving Repr, DecidableEq

/-- The keys of the `summary` dict, in insertion order. -/
def summaryKeys : List String :=
  ["task_type", "format", "total_classes", "classes", "category_mapping",
   "total_images", "total_annotations", "output_directory",
   "confidence_threshold", "coco_file", "bbox_type", "description",
   "generated_at"]

/-- The summary report built at the end of `generate_multilabel_dataset`. -/
def summary_report (log : LabelLog) (t : ℚ) (outputDir : String)
    (generatedAt : ℚ) : SummaryReport :=
  let coco := generate_multilabel_dataset log t
  { task_type := "multilabel_classification"
    format := "COCO"
    total_classes := (sortedClasses log).length
    classes := sortedClasses log
    category_mapping := category_mapping log
    total_images := coco.images.length
    total_annotations := coco.annotations.length
    output_directory := outputDir
    confidence_threshold := t
    coco_file := outputDir ++ "/annotations.json"
    bbox_type := "full_image_bbox"
    description := "Each present label gets a bounding box covering the entire image"
    generated_at := generatedAt }

/-- The per-directory loop of `main`, on the logs of the directories that have
a `labels.jsonl`.  `conf` is the parsed `--confidence` value (default 0.7);
it is a loop-carried Python variable: when it equals 0.7 it is replaced by the
analyzer's suggestion before generating, and the replacement persists into the
next iteration.  Returns, per directory, the threshold actually used and the
generated dataset. -/
def mainProcess (conf : ℚ) : List LabelLog → List (ℚ × CocoData)
  | [] => []
  | log :: rest =>
    let optimal := (analyze_confidence_distribution log).1
    let used := if conf = 7/10 then optimal else conf
    (used, generate_multilabel_dataset log used) :: mainProcess used rest

/-- The category id the dataset generator assigns to class `c`: the value of
`category_mapping[class_name]` (`0` on the impossible missing-key branch). -/
def catId (log : LabelLog) (c : String) : ℕ :=
  ((category_mapping log).lookup c).getD 0

/-- The labels of one entry that pass the annotation filter
(`present` and `confidence >= threshold`), in dict order. -/
def qualLabels (t : ℚ) (item : LogEntry) : List (String × LabelInfo) :=
  item.labels.filter fun p => qualifies t p.2

/-- All `(image id, entry, label)` triples that produce annotations, in
emission order, the image ids counted from `i0`.  This is the loop structure
of `generate_multilabel_dataset` with the two counters factored out; it is
related to `processEntries` by `processEntries_eq` below. -/
def flatQual (t : ℚ) (i0 : ℕ) (log : LabelLog) :
    List (ℕ × LogEntry × String × LabelInfo) :=
  (List.enumFrom i0 log).flatMap fun q =>
    (qualLabels t q.2).map fun p => (q.1, q.2, p)

/-! ### Concrete logs used as test inputs -/

/-- The spec's COCO-export example: a log of 3 entries where class
`"avocado"` is present with confidences 0.95, 0.4 and 0.99. -/
def avocadoEntry (c : ℚ) : LogEntry :=
  ⟨"frames/avocado.jpg", [("avocado", ⟨true, c⟩)]⟩

def avocadoLog : LabelLog :=
  [avocadoEntry (95/100), avocadoEntry (4/10), avocadoEntry (99/100)]

/-- A one-label log entry whose single class `"item"` is present with
confidence `c`. -/
def presentEntry (c : ℚ) : LogEntry :=
  ⟨"frames/frame.jpg", [("item", ⟨true, c⟩)]⟩

/-- A log of 20 present labels: 12 at confidence 0.75, 5 at 0.65 and 3 at
0.55, so that exactly 85% are `>= 0.6` and exactly 60% are `>= 0.7`
(and 100% are `>= 0.5`). -/
def skewedLog : LabelLog :=
  [presentEntry (3/4), presentEntry (3/4), presentEntry (3/4),
   presentEntry (3/4), presentEntry (3/4), presentEntry (3/4),
   presentEntry (3/4), presentEntry (3/4), presentEntry (3/4),
   presentEntry (3/4), presentEntry (3/4), presentEntry (3/4),
   presentEntry (13/20), presentEntry (13/20), presentEntry (13/20),
   presentEntry (13/20), presentEntry (13/20),
   presentEntry (11/20), presentEntry (11/20), presentEntry (11/20)]

/-- A log whose only label is absent (`present == false`). -/
def absentLog : LabelLog :=
  [⟨"frames/000.jpg", [("dog", ⟨false, 1⟩)]⟩]

/-! ### Helper lemmas about the analyzer -/

theorem countAtLeast_eq_countP (cs : List ℚ) (t : ℚ) :
    countAtLeast cs t = cs.countP fun c => decide (t ≤ c) :=
  (List.countP_eq_length_filter _ _).symm

theorem countAtLeast_mergeSort (cs : List ℚ) (le : ℚ → ℚ → Bool) (t : ℚ) :
    countAtLeast (cs.mergeSort le) t = countAtLeast cs t := by
  rw [countAtLeast_eq_countP, countAtLeast_eq_countP]
  exact (List.mergeSort_perm cs le).countP_eq _

theorem selectOptimal_congr (cs cs' : List ℚ) (n : ℕ)
    (h : ∀ t, countAtLeast cs t = countAtLeast cs' t) :
    ∀ ts, selectOptimal cs n ts = selectOptimal cs' n ts
  | [] => rfl
  | t :: ts => by
    simp only [selectOptimal, h t, selectOptimal_congr cs cs' n h ts]

/-- The threshold returned by the analyzer, expressed without the (count- and
length-preserving) sort of the present confidences. -/
theorem analyze_fst (log : LabelLog) :
    (analyze_confidence_distribution log).1 =
      if (presentConfs log).isEmpty then 1/2
      else selectOptimal (presentConfs log) (presentConfs log).length
        analyzerThresholds := by
  unfold analyze_confidence_distribution
  by_cases h : (presentConfs log).isEmpty
  · simp [h]
  · simp only [h, if_false, Bool.false_eq_true]
    rw [(List.mergeSort_perm (presentConfs log) _).length_eq,
      selectOptimal_congr _ (presentConfs log) _
        (fun t => countAtLeast_mergeSort (presentConfs log) _ t)]

theorem countAtLeast_antitone (cs : List ℚ) {t t' : ℚ} (h : t ≤ t') :
    countAtLeast cs t' ≤ countAtLeast cs t := by
  rw [countAtLeast_eq_countP, countAtLeast_eq_countP]
  refine List.countP_mono_left fun c _ hc => ?_
  simp only [decide_eq_true_eq] at hc ⊢
  exact le_trans h hc

theorem selectOptimal_of_forall_not (cs : List ℚ) (n : ℕ) :
    ∀ ts : List ℚ, (∀ u ∈ ts, ¬ ((n : ℚ) * (4/5) ≤ (countAtLeast cs u : ℚ))) →
      selectOptimal cs n ts = 7/10
  | [], _ => rfl
  | t :: ts, h => by
    have ht := h t (List.mem_cons_self t ts)
    simp only [selectOptimal, if_neg ht]
    exact selectOptimal_of_forall_not cs n ts fun u hu => h u (List.mem_cons_of_mem t hu)

theorem selectOptimal_mem_ok (cs : List ℚ) (n : ℕ) :
    ∀ ts : List ℚ, (∃ u ∈ ts, (n : ℚ) * (4/5) ≤ (countAtLeast cs u : ℚ)) →
      selectOptimal cs n ts ∈ ts ∧
        (n : ℚ) * (4/5) ≤ (countAtLeast cs (selectOptimal cs n ts) : ℚ)
  | [], h => by simp at h
  | t :: ts, h => by
    by_cases ht : (n : ℚ) * (4/5) ≤ (countAtLeast cs t : ℚ)
    · simp only [selectOptimal, if_pos ht]
      exact ⟨List.mem_cons_self t ts, ht⟩
    · obtain ⟨u, hu, hok⟩ := h
      rcases List.mem_cons.mp hu with rfl | hu'
      · exact absurd hok ht
      · simp only [selectOptimal, if_neg ht]
        obtain ⟨hmem, hok'⟩ := selectOptimal_mem_ok cs n ts ⟨u, hu', hok⟩
        exact ⟨List.mem_cons_of_mem t hmem, hok'⟩

theorem selectOptimal_min (cs : List ℚ) (n : ℕ) :
    ∀ ts : List ℚ, ts.Sorted (· ≤ ·) →
      ∀ u ∈ ts, (n : ℚ) * (4/5) ≤ (countAtLeast cs u : ℚ) →
        selectOptimal cs n ts ≤ u
  | [], _, u, hu, _ => by simp at hu
  | t :: ts, hs, u, hu, hok => by
    by_cases ht : (n : ℚ) * (4/5) ≤ (countAtLeast cs t : ℚ)
    · simp only [selectOptimal, if_pos ht]
      rcases List.mem_cons.mp hu with rfl | hu'
      · exact le_refl u
      · exact List.rel_of_sorted_cons hs u hu'
    · simp only [selectOptimal, if_neg ht]
      rcases List.mem_cons.mp hu with rfl | hu'
      · exact absurd hok ht
      · exact selectOptimal_min cs n ts hs.of_cons u hu' hok

theorem analyzerThresholds_sorted : analyzerThresholds.Sorted (· ≤ ·) := by
  norm_num [analyzerThresholds, List.sorted_cons]

theorem presentConfs_eq_nil (log : LabelLog)
    (h : ∀ e ∈ log, ∀ p ∈ e.labels, p.2.present = false) :
    presentConfs log = [] := by
  simp only [presentConfs, List.flatMap_eq_nil_iff, List.map_eq_nil_iff,
    List.filter_eq_nil_iff]
  intro e he p hp
  simp [h e he p hp]

/-! ### Claim theorems about the analyzer -/

/-- C2: for every label log with at least one `present == true` label, the
analyzer returns the smallest threshold in `{0.5, 0.6, 0.7, 0.8, 0.9}` (the
ascending scan order) retaining at least 80% of the present-label
confidences, and `0.7` when no threshold qualifies. -/
theorem analyzer_selects_smallest_qualifying_threshold (log : LabelLog)
    (h : presentConfs log ≠ []) :
    ((∃ u ∈ analyzerThresholds,
        ((presentConfs log).length : ℚ) * (4/5) ≤
          (countAtLeast (presentConfs log) u : ℚ)) →
      (analyze_confidence_distribution log).1 ∈ analyzerThresholds ∧
      ((presentConfs log).length : ℚ) * (4/5) ≤
        (countAtLeast (presentConfs log) (analyze_confidence_distribution log).1 : ℚ) ∧
      (∀ u ∈ analyzerThresholds,
        ((presentConfs log).length : ℚ) * (4/5) ≤
          (countAtLeast (presentConfs log) u : ℚ) →
        (analyze_confidence_distribution log).1 ≤ u)) ∧
    ((∀ u ∈ analyzerThresholds,
        ¬ (((presentConfs log).length : ℚ) * (4/5) ≤
          (countAtLeast (presentConfs log) u : ℚ))) →
      (analyze_confidence_distribution log).1 = 7/10) := by
  have hne : (presentConfs log).isEmpty = false := by
    simpa [List.isEmpty_iff] using h
  rw [analyze_fst, hne, if_neg (by simp)]
  refine ⟨fun hex => ?_, fun hall => selectOptimal_of_forall_not _ _ _ hall⟩
  obtain ⟨hmem, hok⟩ := selectOptimal_mem_ok (presentConfs log)
    (presentConfs log).length analyzerThresholds hex
  exact ⟨hmem, hok,
    selectOptimal_min _ _ analyzerThresholds analyzerThresholds_sorted⟩

/-- Witness for C2 at a one-entry log whose only label is present with
confidence 0.9: the scan stops at 0.5 already. -/
theorem analyzer_selects_smallest_qualifying_threshold_witness :
    presentConfs [⟨"img.jpg", [("tomato", ⟨true, 9/10⟩)]⟩] ≠ [] ∧
    ((∃ u ∈ analyzerThresholds,
        ((presentConfs [⟨"img.jpg", [("tomato", ⟨true, 9/10⟩)]⟩]).length : ℚ) * (4/5) ≤
          (countAtLeast (presentConfs [⟨"img.jpg", [("tomato", ⟨true, 9/10⟩)]⟩]) u : ℚ)) →
      (analyze_confidence_distribution [⟨"img.jpg", [("tomato", ⟨true, 9/10⟩)]⟩]).1 ∈ analyzerThresholds ∧
      ((presentConfs [⟨"img.jpg", [("tomato", ⟨true, 9/10⟩)]⟩]).length : ℚ) * (4/5) ≤
        (countAtLeast (presentConfs [⟨"img.jpg", [("tomato", ⟨true, 9/10⟩)]⟩])
          (analyze_confidence_distribution [⟨"img.jpg", [("tomato", ⟨true, 9/10⟩)]⟩]).1 : ℚ) ∧
      (∀ u ∈ analyzerThresholds,
        ((presentConfs [⟨"img.jpg", [("tomato", ⟨true, 9/10⟩)]⟩]).length : ℚ) * (4/5) ≤
          (countAtLeast (presentConfs [⟨"img.jpg", [("tomato", ⟨true, 9/10⟩)]⟩]) u : ℚ) →
        (analyze_confidence_distribution [⟨"img.jpg", [("tomato", ⟨true, 9/10⟩)]⟩]).1 ≤ u)) ∧
    ((∀ u ∈ analyzerThresholds,
        ¬ (((presentConfs [⟨"img.jpg", [("tomato", ⟨true, 9/10⟩)]⟩]).length : ℚ) * (4/5) ≤
          (countAtLeast (presentConfs [⟨"img.jpg", [("tomato", ⟨true, 9/10⟩)]⟩]) u : ℚ))) →
      (analyze_confidence_distribution [⟨"img.jpg", [("tomato", ⟨true, 9/10⟩)]⟩]).1 = 7/10) :=
  ⟨by simp [presentConfs],
   analyzer_selects_smallest_qualifying_threshold _ (by simp [presentConfs])⟩

/-- C3 counterexample: on `skewedLog`, exactly 85% of the present-label
confidences are `>= 0.6` and exactly 60% are `>= 0.7`, yet the analyzer
selects 0.5, not 0.6 — the threshold 0.5 is scanned first and already
retains 100% ≥ 80% of the present labels. -/
theorem analyzer_85_60_counterexample :
    (countAtLeast (presentConfs skewedLog) (3/5) : ℚ)
        = (85/100) * ((presentConfs skewedLog).length : ℚ) ∧
    (countAtLeast (presentConfs skewedLog) (7/10) : ℚ)
        = (60/100) * ((presentConfs skewedLog).length : ℚ) ∧
    (analyze_confidence_distribution skewedLog).1 ≠ 3/5 ∧
    (analyze_confidence_distribution skewedLog).1 = 1/2 := by
  have hconf : presentConfs skewedLog =
      [3/4, 3/4, 3/4, 3/4, 3/4, 3/4, 3/4, 3/4, 3/4, 3/4, 3/4, 3/4,
       13/20, 13/20, 13/20, 13/20, 13/20, 11/20, 11/20, 11/20] := rfl
  have hsel : (analyze_confidence_distribution skewedLog).1 = 1/2 := by
    rw [analyze_fst, if_neg (by rw [hconf]; decide), hconf]
    simp only [analyzerThresholds, selectOptimal]
    rw [if_pos (by norm_num [countAtLeast])]
  refine ⟨by rw [hconf]; norm_num [countAtLeast],
    by rw [hconf]; norm_num [countAtLeast], ?_, hsel⟩
  rw [hsel]; norm_num

/-- C3 amended: on every log where 85% of the present-label confidences are
`>= 0.6` and only 60% are `>= 0.7`, the analyzer selects 0.5 (not 0.6 as the
spec states): the ascending scan reaches 0.5 first and 0.5 necessarily
retains at least as many labels as 0.6 does. -/
theorem analyzer_85_60_amended (log : LabelLog)
    (h6 : (countAtLeast (presentConfs log) (3/5) : ℚ)
        = (85/100) * ((presentConfs log).length : ℚ))
    (h7 : (countAtLeast (presentConfs log) (7/10) : ℚ)
        = (60/100) * ((presentConfs log).length : ℚ)) :
    (analyze_confidence_distribution log).1 = 1/2 := by
  rw [analyze_fst]
  by_cases hemp : (presentConfs log).isEmpty
  · rw [if_pos hemp]
  · rw [if_neg hemp]
    have hmono : countAtLeast (presentConfs log) (3/5) ≤
        countAtLeast (presentConfs log) (1/2) :=
      countAtLeast_antitone (presentConfs log) (by norm_num)
    have hcast : ((countAtLeast (presentConfs log) (3/5) : ℕ) : ℚ) ≤
        (countAtLeast (presentConfs log) (1/2) : ℚ) := by exact_mod_cast hmono
    have hn : (0 : ℚ) ≤ ((presentConfs log).length : ℚ) := by positivity
    simp only [analyzerThresholds, selectOptimal]
    rw [if_pos (by linarith [h6, hcast, hn])]

/-- Witness for the amended C3, at `skewedLog`. -/
theorem analyzer_85_60_amended_witness :
    (countAtLeast (presentConfs skewedLog) (3/5) : ℚ)
        = (85/100) * ((presentConfs skewedLog).length : ℚ) ∧
    (countAtLeast (presentConfs skewedLog) (7/10) : ℚ)
        = (60/100) * ((presentConfs skewedLog).length : ℚ) ∧
    (analyze_confidence_distribution skewedLog).1 = 1/2 := by
  have hconf : presentConfs skewedLog =
      [3/4, 3/4, 3/4, 3/4, 3/4, 3/4, 3/4, 3/4, 3/4, 3/4, 3/4, 3/4,
       13/20, 13/20, 13/20, 13/20, 13/20, 11/20, 11/20, 11/20] := rfl
  have h6 : (countAtLeast (presentConfs skewedLog) (3/5) : ℚ)
      = (85/100) * ((presentConfs skewedLog).length : ℚ) := by
    rw [hconf]; norm_num [countAtLeast]
  have h7 : (countAtLeast (presentConfs skewedLog) (7/10) : ℚ)
      = (60/100) * ((presentConfs skewedLog).length : ℚ) := by
    rw [hconf]; norm_num [countAtLeast]
  exact ⟨h6, h7, analyzer_85_60_amended skewedLog h6 h7⟩

/-- C7: on every log with zero `present == true` labels the analyzer does not
fail and returns `(0.5, "No present objects found")`. -/
theorem analyzer_no_present_labels (log : LabelLog)
    (h : ∀ e ∈ log, ∀ p ∈ e.labels, p.2.present = false) :
    analyze_confidence_distribution log = (1/2, "No present objects found") := by
  unfold analyze_confidence_distribution
  rw [presentConfs_eq_nil log h]
  rfl

/-- Witness for C7 at `absentLog`. -/
theorem analyzer_no_present_labels_witness :
    (∀ e ∈ absentLog, ∀ p ∈ e.labels, p.2.present = false) ∧
    analyze_confidence_distribution absentLog = (1/2, "No present objects found") :=
  ⟨by simp [absentLog], analyzer_no_present_labels absentLog (by simp [absentLog])⟩

/-! ### Closed form of the dataset generator -/

theorem annotateLabels_eq (m : List (String × ℕ)) (t : ℚ) (imgId w h : ℕ) :
    ∀ (a : ℕ) (labels : List (String × LabelInfo)),
      annotateLabels m t imgId w h a labels =
        ((List.enumFrom a (labels.filter fun p => qualifies t p.2)).map
            fun q => mkAnn q.1 imgId ((m.lookup q.2.1).getD 0) w h,
         a + (labels.filter fun p => qualifies t p.2).length)
  | a, [] => by simp [annotateLabels]
  | a, (c, info) :: rest => by
    by_cases hq : qualifies t info
    · simp [annotateLabels, hq, annotateLabels_eq m t imgId w h (a + 1) rest,
        List.filter_cons, List.enumFrom_cons]
      all_goals omega
    · simp [annotateLabels, hq, annotateLabels_eq m t imgId w h a rest,
        List.filter_cons]

theorem flatQual_cons (t : ℚ) (i0 : ℕ) (e : LogEntry) (rest : LabelLog) :
    flatQual t i0 (e :: rest) =
      ((qualLabels t e).map fun p => (i0, e, p)) ++ flatQual t (i0 + 1) rest := by
  simp [flatQual, List.enumFrom_cons]

theorem processEntries_eq (m : List (String × ℕ)) (t : ℚ) :
    ∀ (i0 a0 : ℕ) (log : LabelLog),
      processEntries m t i0 a0 log =
        ((List.enumFrom i0 log).map fun q => mkImage q.1 q.2,
         (List.enumFrom a0 (flatQual t i0 log)).map
           fun r => mkAnn r.1 r.2.1 ((m.lookup r.2.2.2.1).getD 0) 640 480)
  | i0, a0, [] => by simp [processEntries, flatQual]
  | i0, a0, e :: rest => by
    simp only [processEntries, annotateLabels_eq,
      processEntries_eq m t (i0 + 1) (a0 + (e.labels.filter fun p => qualifies t p.2).length) rest,
      flatQual_cons, List.enumFrom_cons, List.map_cons]
    refine Prod.ext rfl ?_
    show _ = (List.enumFrom a0 (_ ++ flatQual t (i0 + 1) rest)).map _
    rw [List.enumFrom_append, List.length_map, List.map_append, List.enumFrom_map,
      List.map_map]
    rfl

/-- The annotations of the generated dataset, in closed form. -/
theorem generate_annotations_eq (log : LabelLog) (t : ℚ) :
    (generate_multilabel_dataset log t).annotations =
      (List.enumFrom 1 (flatQual t 1 log)).map
        fun r => mkAnn r.1 r.2.1
          (((category_mapping log).lookup r.2.2.2.1).getD 0) 640 480 := by
  simp only [generate_multilabel_dataset]
  rw [processEntries_eq]

/-- The image records of the generated dataset, in closed form. -/
theorem generate_images_eq (log : LabelLog) (t : ℚ) :
    (generate_multilabel_dataset log t).images =
      (List.enumFrom 1 log).map fun q => mkImage q.1 q.2 := by
  simp only [generate_multilabel_dataset]
  rw [processEntries_eq]

theorem generate_categories_eq (log : LabelLog) (t : ℚ) :
    (generate_multilabel_dataset log t).categories =
      (category_mapping log).map fun p =>
        { id := p.2, name := p.1, supercategory := "object" } := by
  simp only [generate_multilabel_dataset]

/-! ### Claim theorems about ids, dimensions, determinism -/

/-- C6: image ids are exactly `1, ..., N` in log-entry order (one image per
entry, threshold notwithstanding) and annotation ids are exactly `1, ..., M`
in emission order. -/
theorem ids_monotone_from_one (log : LabelLog) (t : ℚ) :
    (generate_multilabel_dataset log t).images.length = log.length ∧
    (generate_multilabel_dataset log t).images.map CocoImage.id =
      List.range' 1 log.length ∧
    (generate_multilabel_dataset log t).annotations.map CocoAnn.id =
      List.range' 1 (generate_multilabel_dataset log t).annotations.length := by
  rw [generate_images_eq, generate_annotations_eq]
  refine ⟨by simp, ?_, ?_⟩
  · rw [List.map_map]
    have h : (CocoImage.id ∘ fun q : ℕ × LogEntry => mkImage q.1 q.2) = Prod.fst := by
      funext q; rfl
    rw [h, List.enumFrom_map_fst]
  · rw [List.map_map, List.length_map]
    have h : (CocoAnn.id ∘ fun r : ℕ × ℕ × LogEntry × String × LabelInfo =>
        mkAnn r.1 r.2.1 (((category_mapping log).lookup r.2.2.2.1).getD 0) 640 480)
        = Prod.fst := by
      funext r; rfl
    rw [h, List.enumFrom_map_fst, List.enumFrom_length]

/-- C10: `extract_image_info` returns the basename with the fixed dimensions
640 × 480 (it never opens the file: it is a pure function of the path
string), so every image record is 640 × 480 and every annotation has bbox
`[0, 0, 640, 480]` and area 307200. -/
theorem fixed_image_dimensions (log : LabelLog) (t : ℚ) :
    (∀ p, extract_image_info p = (basename p, 640, 480)) ∧
    (∀ img ∈ (generate_multilabel_dataset log t).images,
      img.width = 640 ∧ img.height = 480) ∧
    (∀ a ∈ (generate_multilabel_dataset log t).annotations,
      a.bbox = [0, 0, 640, 480] ∧ a.area = 307200) := by
  refine ⟨fun p => rfl, ?_, ?_⟩
  · rw [generate_images_eq]
    intro img himg
    obtain ⟨q, _, rfl⟩ := List.mem_map.mp himg
    exact ⟨rfl, rfl⟩
  · rw [generate_annotations_eq]
    intro a ha
    obtain ⟨r, _, rfl⟩ := List.mem_map.mp ha
    exact ⟨rfl, by norm_num [mkAnn]⟩

/-- C5: two runs of the export on the same log and threshold produce the same
category mapping and the same annotation sequence, position by position (the
model is a pure function of the log and threshold; the parts of the output
not covered by the claim — the `info` timestamp and `generated_at` — are
environmental and outside the compared fields). -/
theorem export_deterministic (log : LabelLog) (t : ℚ) (d₁ d₂ : CocoData)
    (h₁ : d₁ = generate_multilabel_dataset log t)
    (h₂ : d₂ = generate_multilabel_dataset log t) :
    d₁.categories = d₂.categories ∧ d₁.annotations = d₂.annotations ∧
    ∀ k : ℕ, (d₁.annotations[k]?.map fun a : CocoAnn =>
            (a.id, a.image_id, a.category_id, a.bbox, a.area))
       = (d₂.annotations[k]?.map fun a : CocoAnn =>
            (a.id, a.image_id, a.category_id, a.bbox, a.area)) := by
  subst h₁; subst h₂
  exact ⟨rfl, rfl, fun k => rfl⟩

/-- Witness for C5: two runs on `avocadoLog` at threshold 0.9. -/
theorem export_deterministic_witness :
    (generate_multilabel_dataset avocadoLog (9/10)).categories =
      (generate_multilabel_dataset avocadoLog (9/10)).categories ∧
    (generate_multilabel_dataset avocadoLog (9/10)).annotations =
      (generate_multilabel_dataset avocadoLog (9/10)).annotations ∧
    ∀ k : ℕ, ((generate_multilabel_dataset avocadoLog (9/10)).annotations[k]?.map fun a : CocoAnn =>
            (a.id, a.image_id, a.category_id, a.bbox, a.area))
       = ((generate_multilabel_dataset avocadoLog (9/10)).annotations[k]?.map fun a : CocoAnn =>
            (a.id, a.image_id, a.category_id, a.bbox, a.area)) :=
  export_deterministic avocadoLog (9/10) _ _ rfl rfl

/-! ### Category mapping lemmas and claims -/

theorem sortedClasses_sorted (log : LabelLog) :
    (sortedClasses log).Sorted (· ≤ ·) :=
  List.sorted_mergeSort' (allClasses log)

theorem sortedClasses_nodup (log : LabelLog) : (sortedClasses log).Nodup :=
  (List.mergeSort_perm (allClasses log) _).nodup_iff.mpr (List.nodup_dedup _)

theorem mem_sortedClasses (log : LabelLog) (c : String) :
    c ∈ sortedClasses log ↔ ∃ e ∈ log, ∃ p ∈ e.labels, p.1 = c := by
  rw [sortedClasses, (List.mergeSort_perm _ _).mem_iff, allClasses, List.mem_dedup]
  simp [List.mem_flatMap]

theorem category_mapping_fst (log : LabelLog) :
    (category_mapping log).map Prod.fst = sortedClasses log := by
  rw [category_mapping, List.map_map]
  have h : (Prod.fst ∘ fun p : ℕ × String => (p.2, p.1 + 1)) = Prod.snd := by
    funext p; rfl
  rw [h, List.enum_map_snd]

theorem enumFrom_map_fst_add_one {α : Type} :
    ∀ (k : ℕ) (l : List α),
      (List.enumFrom k l).map (fun p => p.1 + 1) = List.range' (k + 1) l.length
  | _, [] => rfl
  | k, x :: xs => by
    rw [List.enumFrom_cons, List.map_cons, List.length_cons, List.range'_succ,
      enumFrom_map_fst_add_one (k + 1) xs]

theorem category_mapping_snd (log : LabelLog) :
    (category_mapping log).map Prod.snd = List.range' 1 (sortedClasses log).length := by
  rw [category_mapping, List.map_map]
  have h : (Prod.snd ∘ fun p : ℕ × String => (p.2, p.1 + 1)) =
      fun p : ℕ × String => p.1 + 1 := by
    funext p; rfl
  rw [h]
  exact enumFrom_map_fst_add_one 0 (sortedClasses log)

/-- C4: the categories are exactly the alphabetically sorted, duplicate-free
union of the class names of the log, with consecutive ids `1, 2, ...` in
sorted order, and the mapping depends only on the log (in particular not on
the threshold; `category_mapping` is a pure function of the log). -/
theorem categories_sorted_union (log : LabelLog) (t : ℚ) :
    (generate_multilabel_dataset log t).categories.map CocoCategory.name =
      sortedClasses log ∧
    (sortedClasses log).Sorted (· ≤ ·) ∧
    (sortedClasses log).Nodup ∧
    (∀ c, c ∈ sortedClasses log ↔ ∃ e ∈ log, ∃ p ∈ e.labels, p.1 = c) ∧
    (generate_multilabel_dataset log t).categories.map CocoCategory.id =
      List.range' 1 (sortedClasses log).length ∧
    (∀ t', (generate_multilabel_dataset log t').categories =
      (generate_multilabel_dataset log t).categories) := by
  refine ⟨?_, sortedClasses_sorted log, sortedClasses_nodup log,
    mem_sortedClasses log, ?_, fun t' => by rw [generate_categories_eq, generate_categories_eq]⟩
  · rw [generate_categories_eq, List.map_map]
    have h : (CocoCategory.name ∘ fun p : String × ℕ =>
        CocoCategory.mk p.2 p.1 "object") = Prod.fst := by
      funext p; rfl
    rw [h, category_mapping_fst]
  · rw [generate_categories_eq, List.map_map]
    have h : (CocoCategory.id ∘ fun p : String × ℕ =>
        CocoCategory.mk p.2 p.1 "object") = Prod.snd := by
      funext p; rfl
    rw [h, category_mapping_snd]

/-! ### Claim theorem about the summary report -/

/-- C8: the summary report carries all the keys the spec lists, with
`total_classes` the number of distinct class names, `total_images` the number
of log entries, `total_annotations` the number of emitted annotations,
`confidence_threshold` the threshold that was used, and `bbox_type`
`"full_image_bbox"`. -/
theorem summary_report_fields (log : LabelLog) (t : ℚ) (dir : String) (ts : ℚ) :
    ("task_type" ∈ summaryKeys ∧ "format" ∈ summaryKeys ∧
     "total_classes" ∈ summaryKeys ∧ "classes" ∈ summaryKeys ∧
     "category_mapping" ∈ summaryKeys ∧ "total_images" ∈ summaryKeys ∧
     "total_annotations" ∈ summaryKeys ∧ "confidence_threshold" ∈ summaryKeys ∧
     "bbox_type" ∈ summaryKeys ∧ "generated_at" ∈ summaryKeys) ∧
    (summary_report log t dir ts).total_classes = (allClasses log).length ∧
    (summary_report log t dir ts).total_images = log.length ∧
    (summary_report log t dir ts).total_annotations =
      (generate_multilabel_dataset log t).annotations.length ∧
    (summary_report log t dir ts).confidence_threshold = t ∧
    (summary_report log t dir ts).bbox_type = "full_image_bbox" := by
  refine ⟨by simp [summaryKeys], ?_, ?_, rfl, rfl, rfl⟩
  · show (sortedClasses log).length = (allClasses log).length
    exact (List.mergeSort_perm _ _).length_eq
  · show (generate_multilabel_dataset log t).images.length = log.length
    rw [generate_images_eq]
    simp

/-! ### Category-id lookup lemmas -/

theorem lookup_enum_map (c : String) (cs : List String) :
    ∀ k : ℕ, c ∈ cs →
      ((List.enumFrom k cs).map fun p => (p.2, p.1 + 1)).lookup c =
        some (cs.indexOf c + k + 1) := by
  induction cs with
  | nil => intro k h; simp at h
  | cons d cs ih =>
    intro k hc
    rw [List.enumFrom_cons, List.map_cons]
    by_cases hdc : c = d
    · subst hdc
      rw [List.lookup_cons_self, List.indexOf_cons_self]
      simp
    · have hbeq : (c == d) = false := beq_eq_false_iff_ne.mpr hdc
      have hc' : c ∈ cs := by
        rcases List.mem_cons.mp hc with h | h
        · exact absurd h hdc
        · exact h
      rw [List.lookup_cons, hbeq, List.indexOf_cons_ne cs (Ne.symm hdc)]
      show List.lookup c ((List.enumFrom (k + 1) cs).map fun p => (p.2, p.1 + 1)) =
        some (Nat.succ (cs.indexOf c) + k + 1)
      rw [ih (k + 1) hc']
      congr 1
      omega

theorem catId_eq_indexOf (log : LabelLog) (c : String) (hc : c ∈ sortedClasses log) :
    catId log c = (sortedClasses log).indexOf c + 1 := by
  rw [catId, category_mapping, List.enum, lookup_enum_map c (sortedClasses log) 0 hc,
    Option.getD_some]

theorem catId_inj (log : LabelLog) {c c' : String}
    (hc : c ∈ sortedClasses log) (hc' : c' ∈ sortedClasses log)
    (h : catId log c = catId log c') : c = c' := by
  rw [catId_eq_indexOf log c hc, catId_eq_indexOf log c' hc'] at h
  exact (List.indexOf_inj hc hc').mp (by omega)

theorem mem_sortedClasses_of_mem_labels (log : LabelLog) {e : LogEntry}
    {p : String × LabelInfo} (he : e ∈ log) (hp : p ∈ e.labels) :
    p.1 ∈ sortedClasses log :=
  (mem_sortedClasses log p.1).mpr ⟨e, he, p, hp, rfl⟩

/-! ### Filtering the annotation stream by image and category -/

theorem flatQual_fst_ge (t : ℚ) :
    ∀ (i0 : ℕ) (log : LabelLog) (r : ℕ × LogEntry × String × LabelInfo),
      r ∈ flatQual t i0 log → i0 ≤ r.1
  | _, [], _, hr => by simp [flatQual] at hr
  | i0, e :: rest, r, hr => by
    rw [flatQual_cons, List.mem_append] at hr
    rcases hr with hr | hr
    · obtain ⟨p, _, rfl⟩ := List.mem_map.mp hr
      exact le_refl i0
    · exact Nat.le_of_succ_le (flatQual_fst_ge t (i0 + 1) rest r hr)

theorem filter_flatQual (t : ℚ) (g : String × LabelInfo → Bool) :
    ∀ (i0 : ℕ) (log : LabelLog) (i : ℕ) (hi : i < log.length),
      (flatQual t i0 log).filter (fun r => decide (r.1 = i0 + i) && g r.2.2) =
        ((qualLabels t (log.get ⟨i, hi⟩)).filter g).map
          fun p => (i0 + i, log.get ⟨i, hi⟩, p)
  | _, [], i, hi => absurd hi (by simp)
  | i0, e :: rest, 0, hi => by
    rw [flatQual_cons, List.filter_append, List.filter_map]
    have h1 : ((fun r : ℕ × LogEntry × String × LabelInfo =>
        decide (r.1 = i0 + 0) && g r.2.2) ∘ fun p => (i0, e, p)) = g := by
      funext p
      simp
    have h2 : (flatQual t (i0 + 1) rest).filter
        (fun r => decide (r.1 = i0 + 0) && g r.2.2) = [] := by
      rw [List.filter_eq_nil_iff]
      intro r hr
      have := flatQual_fst_ge t (i0 + 1) rest r hr
      simp only [Bool.and_eq_true, decide_eq_true_eq]
      omega
    rw [h1, h2, List.append_nil]
    rfl
  | i0, e :: rest, i + 1, hi => by
    rw [flatQual_cons, List.filter_append]
    have h1 : (((qualLabels t e).map fun p => (i0, e, p)).filter
        (fun r => decide (r.1 = i0 + (i + 1)) && g r.2.2)) = [] := by
      rw [List.filter_eq_nil_iff]
      intro r hr
      obtain ⟨p, _, rfl⟩ := List.mem_map.mp hr
      simp only [Bool.and_eq_true, decide_eq_true_eq]
      omega
    have hi' : i < rest.length := by simpa using hi
    have h2 := filter_flatQual t g (i0 + 1) rest i hi'
    have harith : i0 + 1 + i = i0 + (i + 1) := by omega
    rw [harith] at h2
    rw [h1, List.nil_append, h2]
    rfl

/-- The number of annotations of the dataset carrying a given image id and a
given class's category id equals the number of threshold-passing labels of
that entry whose class has the same category id. -/
theorem length_filter_annotations (log : LabelLog) (t : ℚ) (i : ℕ)
    (hi : i < log.length) (c0 : String) :
    ((generate_multilabel_dataset log t).annotations.filter
        (fun a => decide (a.image_id = i + 1) &&
          decide (a.category_id = catId log c0))).length =
      ((qualLabels t (log.get ⟨i, hi⟩)).filter
        (fun p => decide (catId log p.1 = catId log c0))).length := by
  rw [generate_annotations_eq, List.filter_map]
  rw [List.length_map]
  have h1 : ((fun a : CocoAnn => decide (a.image_id = i + 1) &&
        decide (a.category_id = catId log c0)) ∘
      fun r : ℕ × ℕ × LogEntry × String × LabelInfo =>
        mkAnn r.1 r.2.1 (((category_mapping log).lookup r.2.2.2.1).getD 0) 640 480)
      = fun kr : ℕ × ℕ × LogEntry × String × LabelInfo =>
          (fun r : ℕ × LogEntry × String × LabelInfo =>
            decide (r.1 = i + 1) && decide (catId log r.2.2.1 = catId log c0)) kr.2 := by
    funext kr
    rfl
  rw [h1, ← List.countP_eq_length_filter]
  have h2 : (List.enumFrom 1 (flatQual t 1 log)).countP
      (fun kr => (fun r : ℕ × LogEntry × String × LabelInfo =>
        decide (r.1 = i + 1) && decide (catId log r.2.2.1 = catId log c0)) kr.2) =
      (flatQual t 1 log).countP
        (fun r => decide (r.1 = i + 1) && decide (catId log r.2.2.1 = catId log c0)) := by
    conv_rhs => rw [← List.enumFrom_map_snd 1 (flatQual t 1 log)]
    rw [List.countP_map]
    rfl
  have h3 := filter_flatQual t (fun p => decide (catId log p.1 = catId log c0)) 1 log i hi
  rw [Nat.add_comm 1 i] at h3
  rw [h2, List.countP_eq_length_filter, h3, List.length_map]

/-- Among the labels of an entry with pairwise-distinct class names, exactly
one label carries the target class's category id, so the filtered count is 1
when that label passes the threshold and 0 otherwise. -/
theorem count_target_class (log : LabelLog) (t : ℚ) (c0 : String)
    (info0 : LabelInfo) (hc0 : c0 ∈ sortedClasses log) :
    ∀ ls : List (String × LabelInfo), (∀ p ∈ ls, p.1 ∈ sortedClasses log) →
      (ls.map Prod.fst).Nodup → (c0, info0) ∈ ls →
      ((ls.filter fun p => qualifies t p.2).filter
          (fun p => decide (catId log p.1 = catId log c0))).length =
        if qualifies t info0 then 1 else 0
  | [], _, _, hmem => absurd hmem (List.not_mem_nil _)
  | (c, info) :: ps, hsub, hnd, hmem => by
    rw [List.map_cons, List.nodup_cons] at hnd
    obtain ⟨hcnot, hnd'⟩ := hnd
    rcases List.mem_cons.mp hmem with heq | hmem'
    · rcases heq with ⟨rfl, rfl⟩
      have hzero : ((ps.filter fun p => qualifies t p.2).filter
          (fun p => decide (catId log p.1 = catId log c0))).length = 0 := by
        rw [List.length_eq_zero, List.filter_eq_nil_iff]
        intro p hp
        have hps : p ∈ ps := List.mem_of_mem_filter hp
        have hmemmap : p.1 ∈ ps.map Prod.fst := List.mem_map_of_mem Prod.fst hps
        have hne : p.1 ≠ c0 := fun h => hcnot (h ▸ hmemmap)
        simp only [decide_eq_true_eq]
        exact fun hcid => hne (catId_inj log
          (hsub p (List.mem_cons_of_mem _ hps)) hc0 hcid)
      by_cases hq : qualifies t info0
      · rw [List.filter_cons_of_pos (by simpa using hq),
          List.filter_cons_of_pos (by simp), List.length_cons, hzero, if_pos hq]
      · rw [List.filter_cons_of_neg (by simpa using hq), hzero, if_neg hq]
    · have hc0ps : c0 ∈ ps.map Prod.fst := by
        simpa using List.mem_map_of_mem Prod.fst hmem'
      have hne : c ≠ c0 := fun h => hcnot (h ▸ hc0ps)
      have hhead : decide (catId log c = catId log c0) = false := by
        simp only [decide_eq_false_iff_not]
        exact fun hcid => hne (catId_inj log
          (hsub (c, info) (List.mem_cons_self _ _)) hc0 hcid)
      have ih := count_target_class log t c0 info0 hc0 ps
        (fun p hp => hsub p (List.mem_cons_of_mem _ hp)) hnd' hmem'
      by_cases hq : qualifies t info
      · rw [List.filter_cons_of_pos (by simpa using hq),
          List.filter_cons_of_neg (by simp [hhead]), ih]
      · rw [List.filter_cons_of_neg (by simpa using hq), ih]

theorem generate_images_getElem (log : LabelLog) (t : ℚ) (i : ℕ)
    (hi : i < log.length) :
    (generate_multilabel_dataset log t).images[i]? =
      some (mkImage (i + 1) (log.get ⟨i, hi⟩)) := by
  rw [generate_images_eq, List.getElem?_map, List.getElem?_enumFrom,
    List.getElem?_eq_getElem hi]
  simp [Nat.add_comm]

/-! ### Evaluating the export on the avocado example -/

theorem sortedClasses_avocadoLog : sortedClasses avocadoLog = ["avocado"] := by
  have h : allClasses avocadoLog = ["avocado"] := rfl
  rw [sortedClasses, h]
  exact List.mergeSort_eq_self (List.sorted_singleton "avocado")

theorem category_mapping_avocadoLog :
    category_mapping avocadoLog = [("avocado", 1)] := by
  rw [category_mapping, sortedClasses_avocadoLog]
  rfl

theorem catId_avocadoLog : catId avocadoLog "avocado" = 1 := by
  rw [catId, category_mapping_avocadoLog]
  rfl

theorem annotations_avocadoLog :
    (generate_multilabel_dataset avocadoLog (9/10)).annotations =
      [mkAnn 1 1 1 640 480, mkAnn 2 3 1 640 480] := by
  have q1 : qualifies (9/10) ⟨true, 95/100⟩ = true := by
    simp only [qualifies, Bool.true_and, decide_eq_true_eq]
    norm_num
  have q2 : qualifies (9/10) ⟨true, 4/10⟩ = false := by
    simp only [qualifies, Bool.true_and, decide_eq_false_iff_not]
    norm_num
  have q3 : qualifies (9/10) ⟨true, 99/100⟩ = true := by
    simp only [qualifies, Bool.true_and, decide_eq_true_eq]
    norm_num
  have hflat : flatQual (9/10) 1 avocadoLog =
      [(1, avocadoEntry (95/100), ("avocado", ⟨true, 95/100⟩)),
       (3, avocadoEntry (99/100), ("avocado", ⟨true, 99/100⟩))] := by
    simp [flatQual, avocadoLog, avocadoEntry, qualLabels, List.filter_cons,
      q1, q2, q3, List.enumFrom_cons]
  rw [generate_annotations_eq, category_mapping_avocadoLog, hflat]
  rfl

theorem avocado_annotation_count :
    ((generate_multilabel_dataset avocadoLog (9/10)).annotations.filter
        (fun a => decide (a.category_id = catId avocadoLog "avocado"))).length = 2 := by
  rw [annotations_avocadoLog, catId_avocadoLog]
  rfl

/-! ### Claim theorem C1 -/

/-- C1: the export emits one image record per log entry, and for each label
of an entry exactly one annotation carrying that class's category id and that
entry's image id when `present == true` and `confidence >= threshold`, and no
such annotation otherwise.  Each emitted annotation's bbox is the full extent
`[0, 0, 640, 480]` of its (640 × 480) image record, with area 640 × 480.  On
the spec's example — 3 entries with `"avocado"` present at confidences 0.95,
0.4, 0.99 and threshold 0.9 — exactly 2 avocado annotations are emitted. -/
theorem coco_export_annotations (log : LabelLog) (t : ℚ)
    (hnd : ∀ e ∈ log, (e.labels.map Prod.fst).Nodup) :
    (generate_multilabel_dataset log t).images.length = log.length ∧
    (∀ i, ∀ hi : i < log.length,
      (generate_multilabel_dataset log t).images[i]? =
        some (mkImage (i + 1) (log.get ⟨i, hi⟩)) ∧
      ∀ p ∈ (log.get ⟨i, hi⟩).labels,
        ((generate_multilabel_dataset log t).annotations.filter
            (fun a => decide (a.image_id = i + 1) &&
              decide (a.category_id = catId log p.1))).length
          = if qualifies t p.2 then 1 else 0) ∧
    (∀ a ∈ (generate_multilabel_dataset log t).annotations,
      a.bbox = [0, 0, 640, 480] ∧ a.area = 640 * 480) ∧
    ((generate_multilabel_dataset avocadoLog (9/10)).annotations.filter
        (fun a => decide (a.category_id = catId avocadoLog "avocado"))).length = 2 := by
  refine ⟨?_, ?_, ?_, avocado_annotation_count⟩
  · rw [generate_images_eq]
    simp
  · intro i hi
    refine ⟨generate_images_getElem log t i hi, ?_⟩
    intro p hp
    have he : log.get ⟨i, hi⟩ ∈ log := List.get_mem log i hi
    rw [length_filter_annotations log t i hi p.1]
    have h := count_target_class log t p.1 p.2
      (mem_sortedClasses_of_mem_labels log he hp) (log.get ⟨i, hi⟩).labels
      (fun q hq => mem_sortedClasses_of_mem_labels log he hq)
      (hnd _ he) (by simpa using hp)
    simpa [qualLabels] using h
  · rw [generate_annotations_eq]
    intro a ha
    obtain ⟨r, _, rfl⟩ := List.mem_map.mp ha
    exact ⟨rfl, rfl⟩

/-- Witness for C1 at the avocado log with threshold 0.9. -/
theorem coco_export_annotations_witness :
    (∀ e ∈ avocadoLog, (e.labels.map Prod.fst).Nodup) ∧
    ((generate_multilabel_dataset avocadoLog (9/10)).images.length = avocadoLog.length ∧
    (∀ i, ∀ hi : i < avocadoLog.length,
      (generate_multilabel_dataset avocadoLog (9/10)).images[i]? =
        some (mkImage (i + 1) (avocadoLog.get ⟨i, hi⟩)) ∧
      ∀ p ∈ (avocadoLog.get ⟨i, hi⟩).labels,
        ((generate_multilabel_dataset avocadoLog (9/10)).annotations.filter
            (fun a => decide (a.image_id = i + 1) &&
              decide (a.category_id = catId avocadoLog p.1))).length
          = if qualifies (9/10) p.2 then 1 else 0) ∧
    (∀ a ∈ (generate_multilabel_dataset avocadoLog (9/10)).annotations,
      a.bbox = [0, 0, 640, 480] ∧ a.area = 640 * 480) ∧
    ((generate_multilabel_dataset avocadoLog (9/10)).annotations.filter
        (fun a => decide (a.category_id = catId avocadoLog "avocado"))).length = 2) :=
  ⟨by simp [avocadoLog, avocadoEntry],
   coco_export_annotations avocadoLog (9/10) (by simp [avocadoLog, avocadoEntry])⟩

/-! ### Claim theorem C9 -/

/-- C9 (code bug): the CLI cannot distinguish an explicit `--confidence 0.7`
from the absent flag: the parsed value is compared against the literal
default 0.7, so an explicitly supplied 0.7 is overridden by the
analyzer-suggested threshold (here 0.5, on a log with no present labels),
while any other explicit value is used as supplied. -/
theorem explicit_default_confidence_overridden :
    (mainProcess (7/10) [absentLog]).map Prod.fst = [1/2] ∧
    (mainProcess (3/4) [absentLog]).map Prod.fst = [3/4] ∧
    (1/2 : ℚ) ≠ 7/10 := by
  have hab : (analyze_confidence_distribution absentLog).1 = 1/2 := by
    rw [analyze_fst, presentConfs_eq_nil absentLog (by simp [absentLog])]
    rfl
  refine ⟨?_, ?_, by norm_num⟩
  · simp [mainProcess, hab]
  · simp only [mainProcess, List.map_cons, List.map_nil]
    rw [if_neg (by norm_num)]

end ChatGPTAnnotator
